import Mathlib

/-!
# Verification of osquery's SQLite version-comparison extension

Shallow embedding of `src/osquery/sql/sqlite_version.cpp` (namespace
`osquery`).  A version string is modelled as a list of byte values.
`char` is 8 bits and signed on the targets this repository ships for
(x86-64 Linux, Windows, macOS), so the C conversion `int(c)` maps bytes
128..255 to negative values by sign extension; `charToInt` reproduces
this.  Out-of-range `string_view` indexing is undefined behavior in the
source, so the functions that index (`compareRemainder`) return
`Option Int`, with `none` marking a read outside the buffer; everything
else is a straight transcription.
-/

namespace OsqueryVersion

/-- A version string: an immutable sequence of byte values (each `< 256`
for real inputs). -/
abbrev VerStr := List Nat

/-- C `int(c)` applied to a `char` holding byte `c`: identity below 128,
sign extension above (signed 8-bit `char`). -/
def charToInt (c : Nat) : Int :=
  if c < 128 then (c : Int) else (c : Int) - 256

/-- `delimiterPrecedence` (src lines 43-58): rank of the five delimiter
characters `~ - ^ . :`; `0` for an ordinary character. -/
def delimiterPrecedence (c : Nat) : Int :=
  if c = 126 then 1
  else if c = 45 then 2
  else if c = 94 then 3
  else if c = 46 then 4
  else if c = 58 then 5
  else 0

/-- C `isdigit` in the "C" locale on a byte value: true exactly for
`'0'..'9'` (48..57). -/
def isdigit (c : Nat) : Bool :=
  48 ≤ c && c ≤ 57

/-- Position of the first `':'` (byte 58), as `std::string_view::find(":")`:
`none` models `npos`. -/
def findColon : VerStr → Option Nat
  | [] => none
  | c :: rest => if c = 58 then some 0 else (findColon rest).map (· + 1)

/-- `compareEpoch` (src lines 23-37): difference of the positions of the
first `':'` when both sides have one, `1`/`-1` when exactly one side has
one, `0` otherwise. -/
def compareEpoch (l_ver r_ver : VerStr) : Int :=
  match findColon l_ver, findColon r_ver with
  | some lp, some rp => (lp : Int) - (rp : Int)
  | some _, none => 1
  | none, some _ => -1
  | none, none => 0

/-- The `switch` over the first byte of the longer side at the scan
position, the shared shape of the two symmetric blocks of
`compareRemainder` (src lines 79-91 and 94-106).  `exhausted` is the side
whose length equals `pos`, `other` the longer side; `tildeVal`/`caretVal`
are the values returned for `'~'`/`'^'` (`1`/`-1` in the first block,
`-1`/`1` in the second).  Outer `none` models an out-of-range read (the
source indexes `other[pos]`, and `exhausted[pos - 1]` with `size_t`
wrap-around when `pos = 0`); inner `none` means fall through to the
length-difference return.  The digit check is only evaluated when
`diff != 0 && remainder_precedence` thanks to C short-circuiting. -/
def remSwitch (exhausted other : VerStr) (pos : Nat) (diff : Int)
    (remainder_precedence : Bool) (tildeVal caretVal : Int) :
    Option (Option Int) :=
  match other[pos]? with
  | none => none
  | some c =>
    if c = 126 then some (some tildeVal)
    else if c = 45 then some (some 0)
    else if c = 94 then some (some caretVal)
    else if diff ≠ 0 then
      if remainder_precedence then
        match pos with
        | 0 => none
        | p + 1 =>
          match exhausted[p]? with
          | none => none
          | some b => if isdigit b then some none else some (some diff)
      else some (some diff)
    else some none

/-- `compareRemainder` (src lines 63-111): remainder sort order, or the
version length difference.  The two `if` blocks of the source run in
sequence; either may return early or fall through.  Lengths are below
`2^31` (they arrive as C `int`), so the `size_t` subtraction
`l_ver.size() - r_ver.size()` converted to `int` is the plain integer
difference. -/
def compareRemainder (l_ver r_ver : VerStr) (pos : Nat) (diff : Int)
    (comp_remaining remainder_precedence : Bool) : Option Int :=
  if comp_remaining then
    match (if l_ver.length = pos
           then remSwitch l_ver r_ver pos diff remainder_precedence 1 (-1)
           else some none) with
    | none => none
    | some (some v) => some v
    | some none =>
      match (if r_ver.length = pos
             then remSwitch r_ver l_ver pos diff remainder_precedence (-1) 1
             else some none) with
      | none => none
      | some (some v) => some v
      | some none => some ((l_ver.length : Int) - (r_ver.length : Int))
  else some ((l_ver.length : Int) - (r_ver.length : Int))

/-- Outcome of the lock-step scan loop of `versionCompare`
(src lines 169-199): `ret v` models `return v` from inside the loop,
`done first_diff l_rest r_rest` models falling off the loop with the
final accumulator and the unscanned tails (at least one tail empty). -/
inductive ScanOut where
  | ret : Int → ScanOut
  | done : Int → VerStr → VerStr → ScanOut
deriving DecidableEq

/-- The `for` loop of `versionCompare` (src lines 171-199), consuming both
strings in lock-step up to the shorter length. -/
def scanLoop (dp : Bool) : VerStr → VerStr → Int → ScanOut
  | [], rs, first_diff => .done first_diff [] rs
  | ls, [], first_diff => .done first_diff ls []
  | lc :: ls, rc :: rs, first_diff =>
    let l_delim := delimiterPrecedence lc
    let r_delim := delimiterPrecedence rc
    if l_delim = 0 ∧ r_delim = 0 then
      scanLoop dp ls rs
        (if first_diff = 0 then charToInt lc - charToInt rc else first_diff)
    else if l_delim = 0 then .ret 1
    else if r_delim = 0 then .ret (-1)
    else if first_diff ≠ 0 then .ret first_diff
    else if dp ∧ l_delim - r_delim ≠ 0 then .ret (l_delim - r_delim)
    else scanLoop dp ls rs first_diff

/-- `versionCompare` (src lines 136-209).  The length parameters of the C
function always equal the lengths of the buffers at every call site, so
the model takes the byte lists alone. -/
def versionCompare (l_ver r_ver : VerStr)
    (epoch delim_precedence comp_remaining remainder_precedence : Bool) :
    Option Int :=
  if l_ver.length = 0 ∧ r_ver.length = 0 then some 0
  else if l_ver.length = 0 then some (-1)
  else if r_ver.length = 0 then some 1
  else if l_ver = r_ver then some 0
  else if epoch ∧ compareEpoch l_ver r_ver ≠ 0 then
    some (compareEpoch l_ver r_ver)
  else
    match scanLoop delim_precedence l_ver r_ver 0 with
    | .ret v => some v
    | .done first_diff _ _ =>
      if l_ver.length = r_ver.length then some first_diff
      else compareRemainder l_ver r_ver (min l_ver.length r_ver.length)
             first_diff comp_remaining remainder_precedence

/-- The comparison result as the C `int` the callers receive.
`versionCompare` never actually returns `none` (no out-of-range read is
reachable), so the default is never consulted. -/
def versionCompareI (l_ver r_ver : VerStr)
    (epoch delim_precedence comp_remaining remainder_precedence : Bool) :
    Int :=
  (versionCompare l_ver r_ver epoch delim_precedence comp_remaining
    remainder_precedence).getD 0

/-- `versionCollate` (src lines 288-292): generic preset, all bits false. -/
def versionCollate (l_ver r_ver : VerStr) : Option Int :=
  versionCompare l_ver r_ver false false false false

/-- `versionCollateARCH` (src lines 297-301): epoch, comp_remaining,
remainder_precedence. -/
def versionCollateARCH (l_ver r_ver : VerStr) : Option Int :=
  versionCompare l_ver r_ver true false true true

/-- `versionCollateDPKG` (src lines 306-310): epoch, delim_precedence. -/
def versionCollateDPKG (l_ver r_ver : VerStr) : Option Int :=
  versionCompare l_ver r_ver true true false false

/-- `versionCollateRHEL` (src lines 315-319): epoch, delim_precedence,
comp_remaining. -/
def versionCollateRHEL (l_ver r_ver : VerStr) : Option Int :=
  versionCompare l_ver r_ver true true true false

/-- A SQLite value as seen through `sqlite3_value_type`: text carries its
byte content; `float` and `blob` stand for the remaining types. -/
inductive SqlValue where
  | text : VerStr → SqlValue
  | int : Int → SqlValue
  | null : SqlValue
  | float : SqlValue
  | blob : SqlValue
deriving DecidableEq

/-- `sqlite3_value_type(v) == SQLITE_TEXT`. -/
def isTextV : SqlValue → Bool
  | .text _ => true
  | _ => false

/-- `sqlite3_value_type(v)` is `SQLITE_INTEGER` or `SQLITE_NULL`. -/
def isIntOrNull : SqlValue → Bool
  | .int _ => true
  | .null => true
  | _ => false

/-- Bytes of a text value (only consulted after the type check). -/
def asText : SqlValue → VerStr
  | .text s => s
  | _ => []

/-- Reading a text value through a C `char*` stops at the first NUL byte
(`strlen` / C-string construction). -/
def takeNul (s : VerStr) : VerStr :=
  s.takeWhile (fun b => b != 0)

/-- `sqlite3_value_int` coerced into `vector<bool>` (src line 258):
`sqlite3_value_int` truncates the stored integer to 32 bits, NULL reads
as 0; assignment to a `bool` element is true exactly for a non-zero
value. -/
def optBool : SqlValue → Bool
  | .int i => i % 4294967296 != 0
  | _ => false

/-- The option-validation loop of `versionCompareFunc`
(src lines 248-260), over `argv[3] .. argv[min(argc,7)-1]`: the first
argument that is neither INTEGER nor NULL raises the error, otherwise
each is coerced to a policy boolean. -/
def readOptions : List SqlValue → Except String (List Bool)
  | [] => .ok []
  | v :: rest =>
    if isIntOrNull v then
      match readOptions rest with
      | .ok bs => .ok (optBool v :: bs)
      | .error e => .error e
    else
      .error "Options for epoch, delim_precedence, comp_remaining, and remainder_precedence must be true, false, or null."

/-- The four policy booleans produced by the option loop: read options in
order, missing trailing ones default to false (`vector<bool> options(4)`
value-initializes to false). -/
def resolvedOpts (opts : List SqlValue) : List Bool :=
  ((opts.take 4).map optBool) ++
    List.replicate (4 - (opts.take 4).length) false

/-- The allowed operator set (src line 235): `< <= = >= >` as byte
strings. -/
def opsList : List VerStr :=
  [[60], [60, 61], [61], [62, 61], [62]]

/-- `versionCompareFunc` (src lines 214-283): the `version_compare`
scalar.  `Except.error` carries the message passed to
`sqlite3_result_error`; `Except.ok` the boolean passed to
`sqlite3_result_int`. -/
def versionCompareFunc (args : List SqlValue) : Except String Bool :=
  if args.length < 3 then
    .error "Must provide two version strings and an operator to compare."
  else if !(isTextV (args.getD 0 .null) && isTextV (args.getD 1 .null) &&
            isTextV (args.getD 2 .null)) then
    .error "Must provide two version strings and an operator to compare."
  else
    let op := takeNul (asText (args.getD 1 .null))
    if !(opsList.contains op) then
      .error "Unknown compare operator. Must provide one of the following: (<, <=, =, >=, >)"
    else
      match readOptions ((args.drop 3).take 4) with
      | .error e => .error e
      | .ok bs =>
        let opts := bs ++ List.replicate (4 - bs.length) false
        let l := takeNul (asText (args.getD 0 .null))
        let r := takeNul (asText (args.getD 2 .null))
        let rc := versionCompareI l r (opts.getD 0 false) (opts.getD 1 false)
                    (opts.getD 2 false) (opts.getD 3 false)
        .ok (if rc < 0 then op.getD 0 0 == 60
             else if 0 < rc then op.getD 0 0 == 62
             else (op.getD 0 0 == 61 || op.length == 2))

/-- Whether the scalar raised a caller-visible error. -/
def isError : Except String Bool → Bool
  | .error _ => true
  | .ok _ => false
/-- When the left string is the shorter one, `compareRemainder` with the
comp_remaining bit set is decided by the first `switch` block (the
second block's guard is false). -/
theorem compareRemainder_left (l_ver r_ver : VerStr) (diff : Int)
    (rp : Bool) (hlt : l_ver.length < r_ver.length) :
    compareRemainder l_ver r_ver (min l_ver.length r_ver.length) diff
        true rp =
      match remSwitch l_ver r_ver l_ver.length diff rp 1 (-1) with
      | none => none
      | some (some v) => some v
      | some none =>
          some ((l_ver.length : Int) - (r_ver.length : Int)) := by
  rw [compareRemainder, Nat.min_eq_left hlt.le, if_pos rfl, if_pos rfl,
    if_neg (by omega : ¬ r_ver.length = l_ver.length)]

/-- When the right string is the shorter one, `compareRemainder` with the
comp_remaining bit set is decided by the second `switch` block (the
first block's guard is false). -/
theorem compareRemainder_right (l_ver r_ver : VerStr) (diff : Int)
    (rp : Bool) (hgt : r_ver.length < l_ver.length) :
    compareRemainder l_ver r_ver (min l_ver.length r_ver.length) diff
        true rp =
      match remSwitch r_ver l_ver r_ver.length diff rp (-1) 1 with
      | none => none
      | some (some v) => some v
      | some none =>
          some ((l_ver.length : Int) - (r_ver.length : Int)) := by
  rw [compareRemainder, Nat.min_eq_right hgt.le, if_pos rfl,
    if_neg (by omega : ¬ l_ver.length = r_ver.length), if_pos rfl]


/-- The switch block never reads out of range when the scan position is
inside the longer side, at least 1, and equal to the exhausted side's
length. -/
theorem remSwitch_ne_none (exhausted other : VerStr) (pos : Nat)
    (diff : Int) (rp : Bool) (t c : Int)
    (hpos : pos < other.length) (hpos1 : 1 ≤ pos)
    (hex : pos = exhausted.length) :
    remSwitch exhausted other pos diff rp t c ≠ none := by
  cases pos with
  | zero => omega
  | succ p =>
    have hp : p < exhausted.length := by omega
    rcases hc : other[p + 1]? with _ | cv
    · rw [List.getElem?_eq_getElem hpos] at hc; cases hc
    · rcases hb : exhausted[p]? with _ | b
      · rw [List.getElem?_eq_getElem hp] at hb; cases hb
      · simp only [remSwitch, hc, hb]
        (repeat' split) <;> simp

/-- C10: under the preconditions of the call site (both strings
non-empty, lengths unequal, position equal to the shorter length) every
index performed by the remainder resolver is in bounds: the byte just
past the common scan position lies inside the longer string and the byte
at position minus one lies inside the shorter one, so `compareRemainder`
never takes its out-of-range (`none`) branch. -/
theorem compareRemainder_total (l_ver r_ver : VerStr) (diff : Int)
    (cr rp : Bool) (h1 : l_ver ≠ []) (h2 : r_ver ≠ [])
    (h3 : l_ver.length ≠ r_ver.length) :
    (compareRemainder l_ver r_ver (min l_ver.length r_ver.length) diff
      cr rp).isSome = true := by
  have hl1 : 1 ≤ l_ver.length := by
    cases l_ver with
    | nil => exact absurd rfl h1
    | cons a as => simp
  have hr1 : 1 ≤ r_ver.length := by
    cases r_ver with
    | nil => exact absurd rfl h2
    | cons a as => simp
  rw [compareRemainder]
  cases cr with
  | false => simp
  | true =>
    rw [if_pos rfl]
    rcases Nat.lt_or_ge l_ver.length r_ver.length with hlt | hge
    · have hmin : min l_ver.length r_ver.length = l_ver.length :=
        Nat.min_eq_left hlt.le
      rw [hmin, if_pos rfl, if_neg (by omega)]
      rcases hs : remSwitch l_ver r_ver l_ver.length diff rp 1 (-1) with
          _ | ov
      · exact absurd hs (remSwitch_ne_none _ _ _ _ _ _ _ hlt hl1 rfl)
      · cases ov <;> simp
    · have hgt : r_ver.length < l_ver.length := by omega
      have hmin : min l_ver.length r_ver.length = r_ver.length :=
        Nat.min_eq_right hgt.le
      rw [hmin, if_neg (by omega), if_pos rfl]
      rcases hs : remSwitch r_ver l_ver r_ver.length diff rp (-1) 1 with
          _ | ov
      · exact absurd hs (remSwitch_ne_none _ _ _ _ _ _ _ hgt hr1 rfl)
      · cases ov <;> simp

/-- Witness for `compareRemainder_total` at a concrete input. -/
theorem compareRemainder_total_witness :
    (compareRemainder [49] [49, 48] (min (List.length [49])
      (List.length [49, 48])) 0 true true).isSome = true :=
  compareRemainder_total [49] [49, 48] 0 true true (by decide) (by decide)
    (by decide)

/-- C6: each of the four named collation callbacks is the core comparator
applied with its fixed preset of the four policy bits (epoch,
delim_precedence, comp_remaining, remainder_precedence): generic =
(false, false, false, false), arch = (true, false, true, true), dpkg =
(true, true, false, false), rhel = (true, true, true, false), each
returning the comparator's raw signed result unchanged. -/
theorem collate_presets (l_ver r_ver : VerStr) :
    versionCollate l_ver r_ver =
      versionCompare l_ver r_ver false false false false ∧
    versionCollateARCH l_ver r_ver =
      versionCompare l_ver r_ver true false true true ∧
    versionCollateDPKG l_ver r_ver =
      versionCompare l_ver r_ver true true false false ∧
    versionCollateRHEL l_ver r_ver =
      versionCompare l_ver r_ver true true true false :=
  ⟨rfl, rfl, rfl, rfl⟩

/-- C9: the comparator's base cases hold for every combination of the
four policy bits, before any policy logic runs: identical strings
compare equal, two empty strings compare equal, an empty left string is
less than any non-empty right string (the code returns -1), and a
non-empty left string is greater than an empty right string (the code
returns 1). -/
theorem versionCompare_base_cases (v tail : VerStr) (x : Nat)
    (e d c rp : Bool) :
    versionCompare v v e d c rp = some 0 ∧
    versionCompare [] [] e d c rp = some 0 ∧
    versionCompare [] (x :: tail) e d c rp = some (-1) ∧
    versionCompare (x :: tail) [] e d c rp = some 1 ∧
    versionCompareI [] (x :: tail) e d c rp < 0 ∧
    0 < versionCompareI (x :: tail) [] e d c rp := by
  refine ⟨?_, ?_, ?_, ?_, ?_, ?_⟩
  · cases v with
    | nil => simp [versionCompare]
    | cons a as => simp [versionCompare]
  · simp [versionCompare]
  · simp [versionCompare]
  · simp [versionCompare]
  · simp [versionCompareI, versionCompare]
  · simp [versionCompareI, versionCompare]

/-- C1: the lock-step scan over the common prefix obeys the three rules:
(1) ordinary/ordinary records `left_byte - right_byte` as the pending
difference only when no non-zero pending difference exists yet and
continues; (2) ordinary/delimiter returns immediately with the
ordinary-character side greater (1 when left is ordinary, -1 when right
is); (3) delimiter/delimiter returns a non-zero pending difference if
one exists, otherwise returns the rank difference when the
delim_precedence bit is set and the ranks differ, and otherwise
continues; and when the scan exhausts both strings at equal length the
pending difference (possibly zero) is the result of the comparison. -/
theorem scanLoop_rules (lc rc : Nat) (ls rs l_ver r_ver : VerStr)
    (first_diff : Int) (dp cr rp : Bool) :
    (delimiterPrecedence lc = 0 → delimiterPrecedence rc = 0 →
      scanLoop dp (lc :: ls) (rc :: rs) first_diff =
        scanLoop dp ls rs
          (if first_diff = 0 then charToInt lc - charToInt rc
           else first_diff)) ∧
    (delimiterPrecedence lc = 0 → delimiterPrecedence rc ≠ 0 →
      scanLoop dp (lc :: ls) (rc :: rs) first_diff = .ret 1) ∧
    (delimiterPrecedence lc ≠ 0 → delimiterPrecedence rc = 0 →
      scanLoop dp (lc :: ls) (rc :: rs) first_diff = .ret (-1)) ∧
    (delimiterPrecedence lc ≠ 0 → delimiterPrecedence rc ≠ 0 →
      first_diff ≠ 0 →
      scanLoop dp (lc :: ls) (rc :: rs) first_diff = .ret first_diff) ∧
    (delimiterPrecedence lc ≠ 0 → delimiterPrecedence rc ≠ 0 →
      first_diff = 0 → dp = true →
      delimiterPrecedence lc ≠ delimiterPrecedence rc →
      scanLoop dp (lc :: ls) (rc :: rs) first_diff =
        .ret (delimiterPrecedence lc - delimiterPrecedence rc)) ∧
    (delimiterPrecedence lc ≠ 0 → delimiterPrecedence rc ≠ 0 →
      first_diff = 0 →
      (dp = false ∨ delimiterPrecedence lc = delimiterPrecedence rc) →
      scanLoop dp (lc :: ls) (rc :: rs) first_diff =
        scanLoop dp ls rs first_diff) ∧
    (l_ver ≠ [] → r_ver ≠ [] → l_ver ≠ r_ver →
      l_ver.length = r_ver.length →
      scanLoop dp l_ver r_ver 0 = ScanOut.done first_diff ls rs →
      versionCompare l_ver r_ver false dp cr rp = some first_diff) := by
  refine ⟨?_, ?_, ?_, ?_, ?_, ?_, ?_⟩
  · intro hl hr
    simp [scanLoop, hl, hr]
  · intro hl hr
    simp [scanLoop, hl, hr]
  · intro hl hr
    simp [scanLoop, hl, hr]
  · intro hl hr hd
    simp [scanLoop, hl, hr, hd]
  · intro hl hr hd hdp hne
    have hsub : delimiterPrecedence lc - delimiterPrecedence rc ≠ 0 :=
      sub_ne_zero.mpr hne
    simp [scanLoop, hl, hr, hd, hdp, hsub]
  · intro hl hr hd hcase
    rcases hcase with hdp | heq
    · simp [scanLoop, hl, hr, hd, hdp]
    · simp [scanLoop, hl, hr, hd, heq]
  · intro hl hr hne hlen hscan
    have hl0 : ¬ l_ver.length = 0 := by
      simpa [List.length_eq_zero] using hl
    have hr0 : ¬ r_ver.length = 0 := by
      simpa [List.length_eq_zero] using hr
    simp [versionCompare, hl0, hr0, hne, hscan, hlen]

/-- Witness for `scanLoop_rules`: each rule exercised at a concrete
input (bytes: 97 `a`, 98 `b`, 46 `.`, 126 `~`, 45 `-`). -/
theorem scanLoop_rules_witness :
    scanLoop false [97] [98] 0 =
      scanLoop false [] [] (if (0 : Int) = 0
        then charToInt 97 - charToInt 98 else 0) ∧
    scanLoop false [97] [46] 0 = .ret 1 ∧
    scanLoop false [46] [97] 0 = .ret (-1) ∧
    scanLoop false [46] [46] 5 = .ret 5 ∧
    scanLoop true [126, 97] [45, 98] 0 =
      .ret (delimiterPrecedence 126 - delimiterPrecedence 45) ∧
    scanLoop false [46, 97] [46, 98] 0 = scanLoop false [97] [98] 0 ∧
    versionCompare [49, 46, 50] [49, 46, 51] false false false false =
      some (-1) := by
  refine ⟨?_, ?_, ?_, ?_, ?_, ?_, ?_⟩
  · exact (scanLoop_rules 97 98 [] [] [] [] 0 false false false).1
      (by decide) (by decide)
  · exact (scanLoop_rules 97 46 [] [] [] [] 0 false false false).2.1
      (by decide) (by decide)
  · exact (scanLoop_rules 46 97 [] [] [] [] 0 false false false).2.2.1
      (by decide) (by decide)
  · exact (scanLoop_rules 46 46 [] [] [] [] 5 false false false).2.2.2.1
      (by decide) (by decide) (by decide)
  · exact (scanLoop_rules 126 45 [97] [98] [] [] 0 true false
      false).2.2.2.2.1 (by decide) (by decide) (by decide) rfl (by decide)
  · exact (scanLoop_rules 46 46 [97] [98] [] [] 0 false false
      false).2.2.2.2.2.1 (by decide) (by decide) rfl (Or.inl rfl)
  · exact (scanLoop_rules 0 0 [] [] [49, 46, 50] [49, 46, 51] (-1) false
      false false).2.2.2.2.2.2 (by decide) (by decide) (by decide)
      (by decide) (by decide)

/-- Evaluation of the switch block on each shape of the byte it reads.
Cases: the three marker bytes, the default with no pending difference,
the default returning the pending difference, and the two
digit-check outcomes. -/
theorem remSwitch_eval (exhausted other : VerStr) (pos : Nat)
    (diff : Int) (rp : Bool) (t c : Int) (hpos : pos < other.length) :
    (other.getD pos 0 = 126 →
      remSwitch exhausted other pos diff rp t c = some (some t)) ∧
    (other.getD pos 0 = 45 →
      remSwitch exhausted other pos diff rp t c = some (some 0)) ∧
    (other.getD pos 0 = 94 →
      remSwitch exhausted other pos diff rp t c = some (some c)) ∧
    (other.getD pos 0 ≠ 126 → other.getD pos 0 ≠ 45 →
     other.getD pos 0 ≠ 94 → diff = 0 →
      remSwitch exhausted other pos diff rp t c = some none) ∧
    (other.getD pos 0 ≠ 126 → other.getD pos 0 ≠ 45 →
     other.getD pos 0 ≠ 94 → diff ≠ 0 → rp = false →
      remSwitch exhausted other pos diff rp t c = some (some diff)) ∧
    (other.getD pos 0 ≠ 126 → other.getD pos 0 ≠ 45 →
     other.getD pos 0 ≠ 94 → diff ≠ 0 → rp = true →
     pos = exhausted.length → 1 ≤ pos →
     isdigit (exhausted.getD (pos - 1) 0) = true →
      remSwitch exhausted other pos diff rp t c = some none) ∧
    (other.getD pos 0 ≠ 126 → other.getD pos 0 ≠ 45 →
     other.getD pos 0 ≠ 94 → diff ≠ 0 → rp = true →
     pos = exhausted.length → 1 ≤ pos →
     isdigit (exhausted.getD (pos - 1) 0) = false →
      remSwitch exhausted other pos diff rp t c = some (some diff)) := by
  have hget : other.getD pos 0 = other[pos] :=
    List.getD_eq_getElem other 0 hpos
  refine ⟨?_, ?_, ?_, ?_, ?_, ?_, ?_⟩
  · intro hb
    rw [hget] at hb
    unfold remSwitch
    rw [List.getElem?_eq_getElem hpos]
    simp [hb]
  · intro hb
    rw [hget] at hb
    unfold remSwitch
    rw [List.getElem?_eq_getElem hpos]
    simp [hb]
  · intro hb
    rw [hget] at hb
    unfold remSwitch
    rw [List.getElem?_eq_getElem hpos]
    simp [hb]
  · intro h1 h2 h3 hd
    rw [hget] at h1 h2 h3
    unfold remSwitch
    rw [List.getElem?_eq_getElem hpos]
    simp [h1, h2, h3, hd]
  · intro h1 h2 h3 hd hrp
    rw [hget] at h1 h2 h3
    unfold remSwitch
    rw [List.getElem?_eq_getElem hpos]
    simp [h1, h2, h3, hd, hrp]
  · intro h1 h2 h3 hd hrp hex hp1 hdig
    rw [hget] at h1 h2 h3
    obtain ⟨p, rfl⟩ : ∃ p, pos = p + 1 := ⟨pos - 1, by omega⟩
    have hpe : p < exhausted.length := by omega
    have hdig2 : isdigit exhausted[p] = true := by
      rw [← List.getD_eq_getElem exhausted 0 hpe]
      simpa using hdig
    unfold remSwitch
    rw [List.getElem?_eq_getElem hpos]
    simp [h1, h2, h3, hd, hrp, List.getElem?_eq_getElem hpe, hdig2]
  · intro h1 h2 h3 hd hrp hex hp1 hdig
    rw [hget] at h1 h2 h3
    obtain ⟨p, rfl⟩ : ∃ p, pos = p + 1 := ⟨pos - 1, by omega⟩
    have hpe : p < exhausted.length := by omega
    have hdig2 : isdigit exhausted[p] = false := by
      rw [← List.getD_eq_getElem exhausted 0 hpe]
      simpa using hdig
    unfold remSwitch
    rw [List.getElem?_eq_getElem hpos]
    simp [h1, h2, h3, hd, hrp, List.getElem?_eq_getElem hpe, hdig2]

/-- C2: for non-empty version strings of unequal length whose common
prefix was scanned without an early return, the remainder resolver
behaves as specified: with the comp_remaining bit unset the result is
`len(left) - len(right)`; with it set, the first byte of the longer
string past the common prefix decides: `~` makes the shorter side win
(1 when left is shorter, -1 when right is shorter), `-` yields 0, `^`
makes the longer side win, and any other byte yields the pending
ordinary-character difference when it is non-zero and either the
remainder_precedence bit is unset or the last byte of the shorter
string is not a decimal digit; in all remaining cases the result is
`len(left) - len(right)`. -/
theorem compareRemainder_rules (l_ver r_ver : VerStr) (diff : Int)
    (rp : Bool) (h1 : l_ver ≠ []) (h2 : r_ver ≠ []) :
    (compareRemainder l_ver r_ver (min l_ver.length r_ver.length) diff
        false rp =
      some ((l_ver.length : Int) - (r_ver.length : Int))) ∧
    (l_ver.length < r_ver.length → r_ver.getD l_ver.length 0 = 126 →
      compareRemainder l_ver r_ver (min l_ver.length r_ver.length) diff
        true rp = some 1) ∧
    (l_ver.length < r_ver.length → r_ver.getD l_ver.length 0 = 45 →
      compareRemainder l_ver r_ver (min l_ver.length r_ver.length) diff
        true rp = some 0) ∧
    (l_ver.length < r_ver.length → r_ver.getD l_ver.length 0 = 94 →
      compareRemainder l_ver r_ver (min l_ver.length r_ver.length) diff
        true rp = some (-1)) ∧
    (l_ver.length < r_ver.length → r_ver.getD l_ver.length 0 ≠ 126 →
      r_ver.getD l_ver.length 0 ≠ 45 → r_ver.getD l_ver.length 0 ≠ 94 →
      diff ≠ 0 →
      (rp = false ∨ isdigit (l_ver.getD (l_ver.length - 1) 0) = false) →
      compareRemainder l_ver r_ver (min l_ver.length r_ver.length) diff
        true rp = some diff) ∧
    (l_ver.length < r_ver.length → r_ver.getD l_ver.length 0 ≠ 126 →
      r_ver.getD l_ver.length 0 ≠ 45 → r_ver.getD l_ver.length 0 ≠ 94 →
      (diff = 0 ∨
        (rp = true ∧ isdigit (l_ver.getD (l_ver.length - 1) 0) = true)) →
      compareRemainder l_ver r_ver (min l_ver.length r_ver.length) diff
        true rp =
        some ((l_ver.length : Int) - (r_ver.length : Int))) ∧
    (r_ver.length < l_ver.length → l_ver.getD r_ver.length 0 = 126 →
      compareRemainder l_ver r_ver (min l_ver.length r_ver.length) diff
        true rp = some (-1)) ∧
    (r_ver.length < l_ver.length → l_ver.getD r_ver.length 0 = 45 →
      compareRemainder l_ver r_ver (min l_ver.length r_ver.length) diff
        true rp = some 0) ∧
    (r_ver.length < l_ver.length → l_ver.getD r_ver.length 0 = 94 →
      compareRemainder l_ver r_ver (min l_ver.length r_ver.length) diff
        true rp = some 1) ∧
    (r_ver.length < l_ver.length → l_ver.getD r_ver.length 0 ≠ 126 →
      l_ver.getD r_ver.length 0 ≠ 45 → l_ver.getD r_ver.length 0 ≠ 94 →
      diff ≠ 0 →
      (rp = false ∨ isdigit (r_ver.getD (r_ver.length - 1) 0) = false) →
      compareRemainder l_ver r_ver (min l_ver.length r_ver.length) diff
        true rp = some diff) ∧
    (r_ver.length < l_ver.length → l_ver.getD r_ver.length 0 ≠ 126 →
      l_ver.getD r_ver.length 0 ≠ 45 → l_ver.getD r_ver.length 0 ≠ 94 →
      (diff = 0 ∨
        (rp = true ∧ isdigit (r_ver.getD (r_ver.length - 1) 0) = true)) →
      compareRemainder l_ver r_ver (min l_ver.length r_ver.length) diff
        true rp =
        some ((l_ver.length : Int) - (r_ver.length : Int))) := by
  have hl1 : 1 ≤ l_ver.length := by
    cases l_ver with
    | nil => exact absurd rfl h1
    | cons a as => simp
  have hr1 : 1 ≤ r_ver.length := by
    cases r_ver with
    | nil => exact absurd rfl h2
    | cons a as => simp
  refine ⟨?_, ?_, ?_, ?_, ?_, ?_, ?_, ?_, ?_, ?_, ?_⟩
  · rw [compareRemainder]
    simp
  · intro hlt hb
    rw [compareRemainder_left l_ver r_ver diff rp hlt,
      (remSwitch_eval l_ver r_ver l_ver.length diff rp 1 (-1) hlt).1 hb]
  · intro hlt hb
    rw [compareRemainder_left l_ver r_ver diff rp hlt,
      (remSwitch_eval l_ver r_ver l_ver.length diff rp 1 (-1) hlt).2.1 hb]
  · intro hlt hb
    rw [compareRemainder_left l_ver r_ver diff rp hlt,
      (remSwitch_eval l_ver r_ver l_ver.length diff rp 1
        (-1) hlt).2.2.1 hb]
  · intro hlt hb1 hb2 hb3 hd hcase
    rw [compareRemainder_left l_ver r_ver diff rp hlt]
    rcases hcase with hrp | hdig
    · subst hrp
      rw [(remSwitch_eval l_ver r_ver l_ver.length diff false 1
        (-1) hlt).2.2.2.2.1 hb1 hb2 hb3 hd rfl]
    · cases rp with
      | false =>
        rw [(remSwitch_eval l_ver r_ver l_ver.length diff false 1
          (-1) hlt).2.2.2.2.1 hb1 hb2 hb3 hd rfl]
      | true =>
        rw [(remSwitch_eval l_ver r_ver l_ver.length diff true 1
          (-1) hlt).2.2.2.2.2.2 hb1 hb2 hb3 hd rfl rfl hl1 hdig]
  · intro hlt hb1 hb2 hb3 hcase
    rw [compareRemainder_left l_ver r_ver diff rp hlt]
    rcases hcase with hd | ⟨hrp, hdig⟩
    · rw [(remSwitch_eval l_ver r_ver l_ver.length diff rp 1
        (-1) hlt).2.2.2.1 hb1 hb2 hb3 hd]
    · subst hrp
      by_cases hd : diff = 0
      · rw [(remSwitch_eval l_ver r_ver l_ver.length diff true 1
          (-1) hlt).2.2.2.1 hb1 hb2 hb3 hd]
      · rw [(remSwitch_eval l_ver r_ver l_ver.length diff true 1
          (-1) hlt).2.2.2.2.2.1 hb1 hb2 hb3 hd rfl rfl hl1 hdig]
  · intro hgt hb
    rw [compareRemainder_right l_ver r_ver diff rp hgt,
      (remSwitch_eval r_ver l_ver r_ver.length diff rp (-1) 1 hgt).1 hb]
  · intro hgt hb
    rw [compareRemainder_right l_ver r_ver diff rp hgt,
      (remSwitch_eval r_ver l_ver r_ver.length diff rp (-1)
        1 hgt).2.1 hb]
  · intro hgt hb
    rw [compareRemainder_right l_ver r_ver diff rp hgt,
      (remSwitch_eval r_ver l_ver r_ver.length diff rp (-1)
        1 hgt).2.2.1 hb]
  · intro hgt hb1 hb2 hb3 hd hcase
    rw [compareRemainder_right l_ver r_ver diff rp hgt]
    rcases hcase with hrp | hdig
    · subst hrp
      rw [(remSwitch_eval r_ver l_ver r_ver.length diff false (-1)
        1 hgt).2.2.2.2.1 hb1 hb2 hb3 hd rfl]
    · cases rp with
      | false =>
        rw [(remSwitch_eval r_ver l_ver r_ver.length diff false (-1)
          1 hgt).2.2.2.2.1 hb1 hb2 hb3 hd rfl]
      | true =>
        rw [(remSwitch_eval r_ver l_ver r_ver.length diff true (-1)
          1 hgt).2.2.2.2.2.2 hb1 hb2 hb3 hd rfl rfl hr1 hdig]
  · intro hgt hb1 hb2 hb3 hcase
    rw [compareRemainder_right l_ver r_ver diff rp hgt]
    rcases hcase with hd | ⟨hrp, hdig⟩
    · rw [(remSwitch_eval r_ver l_ver r_ver.length diff rp (-1)
        1 hgt).2.2.2.1 hb1 hb2 hb3 hd]
    · subst hrp
      by_cases hd : diff = 0
      · rw [(remSwitch_eval r_ver l_ver r_ver.length diff true (-1)
          1 hgt).2.2.2.1 hb1 hb2 hb3 hd]
      · rw [(remSwitch_eval r_ver l_ver r_ver.length diff true (-1)
          1 hgt).2.2.2.2.2.1 hb1 hb2 hb3 hd rfl rfl hr1 hdig]

/-- Witness for `compareRemainder_rules`: the length-difference rule, the
tilde rule on each side, and the pending-difference rule, at concrete
inputs. -/
theorem compareRemainder_rules_witness :
    compareRemainder [50, 94] [50] (min 2 1) 7 false true = some 1 ∧
    compareRemainder [49] [49, 126] (min 1 2) 7 true true = some 1 ∧
    compareRemainder [49] [49, 48, 48] (min 1 3) 7 true false = some 7 ∧
    compareRemainder [50, 94] [50] (min 2 1) 7 true true = some 1 := by
  have ha := compareRemainder_rules [50, 94] [50] 7 true
    (by decide) (by decide)
  have hb := compareRemainder_rules [49] [49, 126] 7 true
    (by decide) (by decide)
  have hc := compareRemainder_rules [49] [49, 48, 48] 7 false
    (by decide) (by decide)
  refine ⟨?_, ?_, ?_, ?_⟩
  · simpa using ha.1
  · simpa using hb.2.1 (by decide) (by decide)
  · simpa using hc.2.2.2.2.1 (by decide) (by decide) (by decide)
      (by decide) (by decide) (Or.inl rfl)
  · simpa using ha.2.2.2.2.2.2.2.2.1 (by decide) (by decide)

/-- C3: with the epoch policy bit set, for non-empty non-identical
strings: when exactly one string contains a `:` the result is 1
(positive, left side) or -1 (negative, right side); when both contain
one and the positions of the first `:` differ, the result is the
position difference (left minus right) — the numeric epoch values are
never compared; when neither contains a `:`, or the positions agree,
the comparison proceeds exactly as with the epoch bit unset (the
segment scan). -/
theorem versionCompare_epoch_rules (l_ver r_ver : VerStr) (d c rp : Bool)
    (h1 : l_ver ≠ []) (h2 : r_ver ≠ []) (h3 : l_ver ≠ r_ver) :
    ((findColon l_ver).isSome = true → findColon r_ver = none →
      versionCompare l_ver r_ver true d c rp = some 1) ∧
    (findColon l_ver = none → (findColon r_ver).isSome = true →
      versionCompare l_ver r_ver true d c rp = some (-1)) ∧
    (∀ i j : Nat, findColon l_ver = some i → findColon r_ver = some j →
      i ≠ j →
      versionCompare l_ver r_ver true d c rp =
        some ((i : Int) - (j : Int))) ∧
    (findColon l_ver = none → findColon r_ver = none →
      versionCompare l_ver r_ver true d c rp =
        versionCompare l_ver r_ver false d c rp) ∧
    (∀ i : Nat, findColon l_ver = some i → findColon r_ver = some i →
      versionCompare l_ver r_ver true d c rp =
        versionCompare l_ver r_ver false d c rp) := by
  have hl0 : ¬ l_ver.length = 0 := by
    simpa [List.length_eq_zero] using h1
  have hr0 : ¬ r_ver.length = 0 := by
    simpa [List.length_eq_zero] using h2
  refine ⟨?_, ?_, ?_, ?_, ?_⟩
  · intro hcl hcr
    obtain ⟨i, hi⟩ := Option.isSome_iff_exists.mp hcl
    have hce : compareEpoch l_ver r_ver = 1 := by
      rw [compareEpoch, hi, hcr]
    simp [versionCompare, hl0, hr0, h3, hce]
  · intro hcl hcr
    obtain ⟨j, hj⟩ := Option.isSome_iff_exists.mp hcr
    have hce : compareEpoch l_ver r_ver = -1 := by
      rw [compareEpoch, hcl, hj]
    simp [versionCompare, hl0, hr0, h3, hce]
  · intro i j hi hj hne
    have hce : compareEpoch l_ver r_ver = (i : Int) - (j : Int) := by
      rw [compareEpoch, hi, hj]
    have hsub : (i : Int) - (j : Int) ≠ 0 :=
      sub_ne_zero.mpr (by exact_mod_cast hne)
    simp [versionCompare, hl0, hr0, h3, hce, hsub]
  · intro hcl hcr
    have hce : compareEpoch l_ver r_ver = 0 := by
      rw [compareEpoch, hcl, hcr]
    simp [versionCompare, hl0, hr0, h3, hce]
  · intro i hi hj
    have hce : compareEpoch l_ver r_ver = 0 := by
      rw [compareEpoch, hi, hj]
      simp
    simp [versionCompare, hl0, hr0, h3, hce]

/-- Witness for `versionCompare_epoch_rules`: byte 58 is `:`; inputs
`2:` vs `9.`, `9.` vs `2:`, `:a` vs `a:`, `1` vs `2`, `:a` vs `:b`. -/
theorem versionCompare_epoch_rules_witness :
    versionCompare [50, 58] [57, 46] true false false false = some 1 ∧
    versionCompare [57, 46] [50, 58] true false false false =
      some (-1) ∧
    versionCompare [58, 97] [97, 58] true false false false =
      some ((0 : Int) - (1 : Int)) ∧
    versionCompare [49] [50] true false false false =
      versionCompare [49] [50] false false false false ∧
    versionCompare [58, 97] [58, 98] true false false false =
      versionCompare [58, 97] [58, 98] false false false false := by
  refine ⟨?_, ?_, ?_, ?_, ?_⟩
  · exact (versionCompare_epoch_rules [50, 58] [57, 46] false false false
      (by decide) (by decide) (by decide)).1 (by decide) (by decide)
  · exact (versionCompare_epoch_rules [57, 46] [50, 58] false false false
      (by decide) (by decide) (by decide)).2.1 (by decide) (by decide)
  · exact (versionCompare_epoch_rules [58, 97] [97, 58] false false false
      (by decide) (by decide) (by decide)).2.2.1 0 1 (by decide)
      (by decide) (by decide)
  · exact (versionCompare_epoch_rules [49] [50] false false false
      (by decide) (by decide) (by decide)).2.2.2.1 (by decide) (by decide)
  · exact (versionCompare_epoch_rules [58, 97] [58, 98] false false false
      (by decide) (by decide) (by decide)).2.2.2.2 0 (by decide)
      (by decide)

/-- Swapping the arguments of `compareEpoch` negates the result. -/
theorem compareEpoch_swap (l_ver r_ver : VerStr) :
    compareEpoch r_ver l_ver = -compareEpoch l_ver r_ver := by
  rw [compareEpoch, compareEpoch]
  cases findColon l_ver <;> cases findColon r_ver <;> simp [neg_sub]

/-- The switch block with negated pending difference and negated marker
values computes the negation of the original (out-of-range and
fall-through outcomes unchanged). -/
theorem remSwitch_swap (e o : VerStr) (pos : Nat) (d : Int) (rp : Bool)
    (t c : Int) :
    remSwitch e o pos (-d) rp (-t) (-c) =
      (remSwitch e o pos d rp t c).map (Option.map (fun v => -v)) := by
  unfold remSwitch
  cases ho : o[pos]? with
  | none => rfl
  | some b =>
    by_cases h1 : b = 126
    · simp [h1]
    · by_cases h2 : b = 45
      · simp [h1, h2]
      · by_cases h3 : b = 94
        · simp [h1, h2, h3]
        · by_cases hd : d = 0
          · simp [h1, h2, h3, hd]
          · have hd2 : ¬ (-d = 0) := by simpa [neg_eq_zero] using hd
            cases rp with
            | false => simp [h1, h2, h3, hd, hd2]
            | true =>
              cases pos with
              | zero => simp [h1, h2, h3, hd, hd2]
              | succ p =>
                cases he : e[p]? with
                | none => simp [h1, h2, h3, hd, hd2, he]
                | some bb =>
                  by_cases hdg : isdigit bb = true
                  · simp [h1, h2, h3, hd, hd2, he, hdg]
                  · simp [h1, h2, h3, hd, hd2, he, hdg]

/-- The scan loop on swapped strings with negated accumulator: an early
return is negated, a completed scan yields the negated accumulator and
the swapped tails. -/
theorem scanLoop_swap (dp : Bool) (ls rs : VerStr) (fd : Int) :
    scanLoop dp rs ls (-fd) =
      match scanLoop dp ls rs fd with
      | .ret v => .ret (-v)
      | .done d a b => .done (-d) b a := by
  induction ls generalizing rs fd with
  | nil =>
    cases rs with
    | nil => simp [scanLoop]
    | cons rc rs => simp [scanLoop]
  | cons lc ls ih =>
    cases rs with
    | nil => simp [scanLoop]
    | cons rc rs =>
      by_cases hl : delimiterPrecedence lc = 0 <;>
        by_cases hr : delimiterPrecedence rc = 0
      · have e1 : scanLoop dp (rc :: rs) (lc :: ls) (-fd) =
            scanLoop dp rs ls
              (if -fd = 0 then charToInt rc - charToInt lc else -fd) := by
          simp [scanLoop, hl, hr]
        have e2 : scanLoop dp (lc :: ls) (rc :: rs) fd =
            scanLoop dp ls rs
              (if fd = 0 then charToInt lc - charToInt rc else fd) := by
          simp [scanLoop, hl, hr]
        have harg : (if -fd = 0 then charToInt rc - charToInt lc else -fd)
            = -(if fd = 0 then charToInt lc - charToInt rc else fd) := by
          by_cases hfd : fd = 0 <;> simp [hfd, neg_eq_zero, neg_sub]
        rw [e1, e2, harg, ih]
      · simp [scanLoop, hl, hr]
      · simp [scanLoop, hl, hr]
      · by_cases hfd : fd = 0
        · subst hfd
          by_cases hdp : dp = true
          · by_cases hpp :
                delimiterPrecedence lc = delimiterPrecedence rc
            · have e1 : scanLoop dp (rc :: rs) (lc :: ls) (-0) =
                  scanLoop dp rs ls (-0) := by
                simp [scanLoop, hl, hr, hdp, hpp]
              have e2 : scanLoop dp (lc :: ls) (rc :: rs) 0 =
                  scanLoop dp ls rs 0 := by
                simp [scanLoop, hl, hr, hdp, hpp]
              rw [e1, e2, ih]
            · have hsub : delimiterPrecedence lc - delimiterPrecedence rc
                  ≠ 0 := sub_ne_zero.mpr hpp
              have hsub2 : delimiterPrecedence rc - delimiterPrecedence lc
                  ≠ 0 := sub_ne_zero.mpr (fun h => hpp h.symm)
              simp [scanLoop, hl, hr, hdp, hsub, hsub2, neg_sub]
          · have e1 : scanLoop dp (rc :: rs) (lc :: ls) (-0) =
                scanLoop dp rs ls (-0) := by
              simp [scanLoop, hl, hr, hdp]
            have e2 : scanLoop dp (lc :: ls) (rc :: rs) 0 =
                scanLoop dp ls rs 0 := by
              simp [scanLoop, hl, hr, hdp]
            rw [e1, e2, ih]
        · have hfd2 : ¬ (-fd = 0) := by simpa [neg_eq_zero] using hfd
          simp [scanLoop, hl, hr, hfd, hfd2]

/-- When the read past the common position is out of range, the switch
block is the out-of-range outcome. -/
theorem remSwitch_oob (e o : VerStr) (pos : Nat) (d : Int) (rp : Bool)
    (t c : Int) (h : o[pos]? = none) :
    remSwitch e o pos d rp t c = none := by
  simp [remSwitch, h]

/-- The remainder resolver on swapped strings with negated pending
difference computes the negation of the original result. -/
theorem compareRemainder_swap (l_ver r_ver : VerStr) (pos : Nat)
    (d : Int) (cr rp : Bool) :
    compareRemainder r_ver l_ver pos (-d) cr rp =
      (compareRemainder l_ver r_ver pos d cr rp).map (fun v => -v) := by
  cases cr with
  | false => simp [compareRemainder, neg_sub]
  | true =>
    by_cases hle : l_ver.length = pos <;>
      by_cases hre : r_ver.length = pos
    · -- both guards hold: the first block of either orientation reads
      -- past the end of the other string
      have h1 : l_ver[pos]? = none := by
        rw [List.getElem?_eq_none]
        omega
      have h2 : r_ver[pos]? = none := by
        rw [List.getElem?_eq_none]
        omega
      simp [compareRemainder, hle, hre,
        remSwitch_oob r_ver l_ver pos (-d) rp 1 (-1) h1,
        remSwitch_oob l_ver r_ver pos d rp 1 (-1) h2]
    · -- only the left string is exhausted
      have hsw := remSwitch_swap l_ver r_ver pos d rp 1 (-1)
      simp only [neg_neg] at hsw
      rcases hx : remSwitch l_ver r_ver pos d rp 1 (-1) with _ | (_ | v)
      · simp [compareRemainder, hle, hre, hsw, hx]
      · simp [compareRemainder, hle, hre, hsw, hx, neg_sub]
      · simp [compareRemainder, hle, hre, hsw, hx]
    · -- only the right string is exhausted
      have hsw := remSwitch_swap r_ver l_ver pos d rp (-1) 1
      simp only [neg_neg] at hsw
      rcases hx : remSwitch r_ver l_ver pos d rp (-1) 1 with _ | (_ | v)
      · simp [compareRemainder, hle, hre, hsw, hx]
      · simp [compareRemainder, hle, hre, hsw, hx, neg_sub]
      · simp [compareRemainder, hle, hre, hsw, hx]
    · simp [compareRemainder, hle, hre, neg_sub]

/-- Swapping the two version strings negates the comparison outcome
(out-of-range outcomes unchanged). -/
theorem versionCompare_swap (l_ver r_ver : VerStr) (e d c rp : Bool) :
    versionCompare r_ver l_ver e d c rp =
      (versionCompare l_ver r_ver e d c rp).map (fun v => -v) := by
  rw [versionCompare, versionCompare]
  by_cases hl : l_ver.length = 0 <;> by_cases hr : r_ver.length = 0
  · simp [hl, hr]
  · simp [hl, hr]
  · simp [hl, hr]
  · by_cases heq : l_ver = r_ver
    · simp [hl, hr, heq]
    · have heq2 : ¬ r_ver = l_ver := fun h => heq h.symm
      by_cases hep : e = true ∧ compareEpoch l_ver r_ver ≠ 0
      · have hep2 : e = true ∧ compareEpoch r_ver l_ver ≠ 0 :=
          ⟨hep.1, by
            rw [compareEpoch_swap]
            simpa [neg_eq_zero] using hep.2⟩
        simp [hl, hr, heq, heq2, hep, hep2, compareEpoch_swap l_ver r_ver]
      · have hep2 : ¬ (e = true ∧ compareEpoch r_ver l_ver ≠ 0) := by
          intro hcon
          exact hep ⟨hcon.1, by
            rw [compareEpoch_swap] at hcon
            simpa [neg_eq_zero] using hcon.2⟩
        have hsw := scanLoop_swap d l_ver r_ver 0
        simp only [neg_zero] at hsw
        rcases hx : scanLoop d l_ver r_ver 0 with v | ⟨fd, a, b⟩
        · rw [hx] at hsw
          simp [hl, hr, heq, heq2, hep, hep2, hsw, hx]
        · rw [hx] at hsw
          by_cases hlen : l_ver.length = r_ver.length
          · simp [hl, hr, heq, heq2, hep, hep2, hsw, hx, hlen]
          · have hlen2 : ¬ r_ver.length = l_ver.length :=
              fun h => hlen h.symm
            have hrem := compareRemainder_swap l_ver r_ver
              (min l_ver.length r_ver.length) fd c rp
            simp [hl, hr, heq, heq2, hep, hep2, hsw, hx, hlen, hlen2,
              Nat.min_comm r_ver.length l_ver.length, hrem]

/-- C4: antisymmetry — for every pair of version strings and every
combination of the four policy bits, the sign of `compare(a, b)` is the
negation of the sign of `compare(b, a)`. -/
theorem versionCompare_antisymm (a b : VerStr) (e d c rp : Bool) :
    Int.sign (versionCompareI a b e d c rp) =
      -Int.sign (versionCompareI b a e d c rp) := by
  rw [versionCompareI, versionCompareI, versionCompare_swap b a e d c rp]
  rcases versionCompare b a e d c rp with _ | v
  · simp
  · simp [Int.sign_neg]

/-- An identical prefix is transparent to the scan: equal ordinary bytes
record a zero difference and equal delimiters pass every delimiter
check. -/
theorem scanLoop_common (dp : Bool) (c l r : VerStr) :
    scanLoop dp (c ++ l) (c ++ r) 0 = scanLoop dp l r 0 := by
  induction c with
  | nil => rfl
  | cons x c ih =>
    by_cases hx : delimiterPrecedence x = 0
    · simpa [scanLoop, hx] using ih
    · simpa [scanLoop, hx] using ih

/-- Once a non-zero difference is pending, a delimiter-free equal-length
tail scans to completion without changing it. -/
theorem scanLoop_run (dp : Bool) (ls rs : VerStr) (fd : Int)
    (hfd : fd ≠ 0)
    (hls : ∀ b ∈ ls, delimiterPrecedence b = 0)
    (hrs : ∀ b ∈ rs, delimiterPrecedence b = 0)
    (hlen : ls.length = rs.length) :
    scanLoop dp ls rs fd = .done fd [] [] := by
  induction ls generalizing rs with
  | nil =>
    cases rs with
    | nil => simp [scanLoop]
    | cons rc rs => simp at hlen
  | cons lc ls ih =>
    cases rs with
    | nil => simp at hlen
    | cons rc rs =>
      have h1 : delimiterPrecedence lc = 0 := hls lc (by simp)
      have h2 : delimiterPrecedence rc = 0 := hrs rc (by simp)
      have e : scanLoop dp (lc :: ls) (rc :: rs) fd =
          scanLoop dp ls rs fd := by
        simp [scanLoop, h1, h2, hfd]
      rw [e]
      exact ih rs (fun b hb => hls b (by simp [hb]))
        (fun b hb => hrs b (by simp [hb])) (by simpa using hlen)

/-- `charToInt` is injective on byte values. -/
theorem charToInt_inj (a b : Nat) (ha : a < 256) (hb : b < 256)
    (hne : a ≠ b) : charToInt a ≠ charToInt b := by
  rw [charToInt, charToInt]
  split <;> split <;> omega

/-- C5 counterexample: the claim that the comparison's sign equals the
sign of the unsigned byte difference at the first ordinary/ordinary
divergence fails on the code.  First input: bytes `[0x80]` vs `[0x41]`
(first divergence ordinary vs ordinary, unsigned difference positive)
compare negative, because `int(char)` sign-extends bytes at and above
0x80.  Second input: `ab` vs `b.` diverges first at the ordinary pair
`a`/`b` (difference negative) yet compares positive, because the later
ordinary-versus-delimiter pair returns first. -/
theorem byte_order_cex :
    (versionCompareI [128] [65] false false false false < 0 ∧
      (0 : Int) < (128 : Int) - (65 : Int)) ∧
    (0 < versionCompareI [97, 98] [98, 46] false false false false ∧
      (97 : Int) - (98 : Int) < 0) := by
  decide

/-- C5 amended: below the delimiter and epoch special cases, ordering is
defined on bytes as signed 8-bit `char` values: when the two strings
share an arbitrary common prefix and then diverge at two ordinary
characters followed by delimiter-free tails of equal length (so that no
later ordinary/delimiter pair cuts the scan short), the result is
`charToInt lc - charToInt rc`, the difference of the diverging bytes
after the C `char → int` conversion; its sign coincides with the sign
of the unsigned byte difference exactly when both bytes are below 0x80
(bytes at and above 0x80 compare as negative values). -/
theorem byte_order_amended (c ls rs : VerStr) (lc rc : Nat)
    (dp cr rp : Bool)
    (hlc : delimiterPrecedence lc = 0) (hrc : delimiterPrecedence rc = 0)
    (hls : ∀ b ∈ ls, delimiterPrecedence b = 0)
    (hrs : ∀ b ∈ rs, delimiterPrecedence b = 0)
    (hlen : ls.length = rs.length)
    (hb1 : lc < 256) (hb2 : rc < 256) (hne : lc ≠ rc) :
    versionCompareI (c ++ lc :: ls) (c ++ rc :: rs) false dp cr rp =
      charToInt lc - charToInt rc ∧
    (lc < 128 → rc < 128 →
      Int.sign (charToInt lc - charToInt rc) =
        Int.sign ((lc : Int) - (rc : Int))) := by
  constructor
  · have hfd : charToInt lc - charToInt rc ≠ 0 :=
      sub_ne_zero.mpr (charToInt_inj lc rc hb1 hb2 hne)
    have hscan : scanLoop dp (c ++ lc :: ls) (c ++ rc :: rs) 0 =
        .done (charToInt lc - charToInt rc) [] [] := by
      rw [scanLoop_common]
      have e : scanLoop dp (lc :: ls) (rc :: rs) 0 =
          scanLoop dp ls rs (charToInt lc - charToInt rc) := by
        simp [scanLoop, hlc, hrc]
      rw [e]
      exact scanLoop_run dp ls rs _ hfd hls hrs hlen
    have hne2 : c ++ lc :: ls ≠ c ++ rc :: rs := by
      intro h
      have h2 := List.append_cancel_left h
      simp only [List.cons.injEq] at h2
      exact hne h2.1
    have hl0 : ¬ (c ++ lc :: ls).length = 0 := by simp
    have hr0 : ¬ (c ++ rc :: rs).length = 0 := by simp
    have hlen2 : (c ++ lc :: ls).length = (c ++ rc :: rs).length := by
      simp [hlen]
    rw [versionCompareI, versionCompare]
    simp [hl0, hr0, hne2, hscan, hlen2]
  · intro h1 h2
    rw [charToInt, charToInt]
    simp [h1, h2]

/-- Witness for `byte_order_amended`: common prefix `1.`, diverging
ordinary bytes `a` (97) and `b` (98), empty tails. -/
theorem byte_order_amended_witness :
    versionCompareI ([49, 46] ++ 97 :: []) ([49, 46] ++ 98 :: [])
        false false false false = charToInt 97 - charToInt 98 ∧
    ((97 : Nat) < 128 → (98 : Nat) < 128 →
      Int.sign (charToInt 97 - charToInt 98) =
        Int.sign ((97 : Int) - (98 : Int))) :=
  byte_order_amended [49, 46] [] [] 97 98 false false false (by decide)
    (by decide) (by simp) (by simp) rfl (by decide) (by decide)
    (by decide)

/-- When every processed option argument is INTEGER or NULL, the option
loop succeeds and coerces each in order. -/
theorem readOptions_ok (xs : List SqlValue)
    (h : ∀ v ∈ xs, isIntOrNull v = true) :
    readOptions xs = .ok (xs.map optBool) := by
  induction xs with
  | nil => rfl
  | cons v rest ih =>
    have hv : isIntOrNull v = true := h v (by simp)
    have hrest := ih (fun w hw => h w (by simp [hw]))
    simp [readOptions, hv, hrest]

/-- When some processed option argument is neither INTEGER nor NULL, the
option loop raises the option error. -/
theorem readOptions_error_eq (xs : List SqlValue)
    (h : ∃ v ∈ xs, isIntOrNull v = false) :
    readOptions xs = .error "Options for epoch, delim_precedence, comp_remaining, and remainder_precedence must be true, false, or null." := by
  induction xs with
  | nil => simp at h
  | cons v rest ih =>
    by_cases hv : isIntOrNull v = true
    · have hrest : ∃ w ∈ rest, isIntOrNull w = false := by
        rcases h with ⟨w, hw, hwf⟩
        rcases List.mem_cons.mp hw with rfl | hw2
        · rw [hv] at hwf
          cases hwf
        · exact ⟨w, hw2, hwf⟩
      simp [readOptions, hv, ih hrest]
    · simp [readOptions, hv]

/-- NULL options all coerce to false. -/
theorem readOptions_nulls (n : Nat) :
    readOptions (List.replicate n SqlValue.null) =
      .ok (List.replicate n false) := by
  induction n with
  | zero => rfl
  | succ m ih => simp [List.replicate_succ, readOptions, ih, isIntOrNull,
      optBool]

/-- On arguments of the shape text/text/text followed by anything, the
scalar reduces to the operator check, the option loop over the next four
arguments, and the result mapping. -/
theorem versionCompareFunc_cons (l op r : VerStr) (tail : List SqlValue) :
    versionCompareFunc
        (.text l :: .text op :: .text r :: tail) =
      (if (!(opsList.contains (takeNul op))) = true then
        Except.error "Unknown compare operator. Must provide one of the following: (<, <=, =, >=, >)"
      else
        match readOptions (tail.take 4) with
        | .error e => .error e
        | .ok bs =>
          let opts := bs ++ List.replicate (4 - bs.length) false
          let rc := versionCompareI (takeNul l) (takeNul r)
            (opts.getD 0 false) (opts.getD 1 false) (opts.getD 2 false)
            (opts.getD 3 false)
          .ok (if rc < 0 then (takeNul op).getD 0 0 == 60
               else if 0 < rc then (takeNul op).getD 0 0 == 62
               else ((takeNul op).getD 0 0 == 61 ||
                 (takeNul op).length == 2))) := by
  simp only [versionCompareFunc]
  rw [if_neg (by simp)]
  rfl

/-- C8: the scalar predicate raises a caller-visible error — without
running the comparator and without producing a result — exactly when
fewer than 3 arguments are given, one of the first three arguments is
not text, the operator argument is not one of `< <= = >= >`, or a
trailing option argument (positions 4 through 7) is neither an integer
nor null; and null options behave exactly like absent ones (both
default to false). -/
theorem versionCompareFunc_errors (args : List SqlValue) (l op r : VerStr)
    (k : Nat) :
    (isError (versionCompareFunc args) = true ↔
      (args.length < 3 ∨
       isTextV (args.getD 0 .null) = false ∨
       isTextV (args.getD 1 .null) = false ∨
       isTextV (args.getD 2 .null) = false ∨
       takeNul (asText (args.getD 1 .null)) ∉ opsList ∨
       ∃ v ∈ (args.drop 3).take 4, isIntOrNull v = false)) ∧
    versionCompareFunc
        (.text l :: .text op :: .text r :: List.replicate k .null) =
      versionCompareFunc [.text l, .text op, .text r] := by
  constructor
  · rw [versionCompareFunc]
    by_cases hA : args.length < 3
    · rw [if_pos hA]
      exact ⟨fun _ => Or.inl hA, fun _ => rfl⟩
    · rw [if_neg hA]
      by_cases h0 : isTextV (args.getD 0 .null) = true
      · by_cases h1 : isTextV (args.getD 1 .null) = true
        · by_cases h2 : isTextV (args.getD 2 .null) = true
          · rw [if_neg (by rw [h0, h1, h2]; decide)]
            by_cases hop : takeNul (asText (args.getD 1 .null)) ∈ opsList
            · have hcon : opsList.contains
                  (takeNul (asText (args.getD 1 .null))) = true := by
                simpa using hop
              rw [if_neg (by rw [hcon]; decide)]
              by_cases hbad :
                  ∃ v ∈ (args.drop 3).take 4, isIntOrNull v = false
              · rw [readOptions_error_eq _ hbad]
                exact ⟨fun _ => Or.inr (Or.inr (Or.inr (Or.inr
                  (Or.inr hbad)))), fun _ => rfl⟩
              · have hall : ∀ v ∈ (args.drop 3).take 4,
                    isIntOrNull v = true := by
                  intro v hv
                  by_contra hc
                  exact hbad ⟨v, hv, by simpa using hc⟩
                rw [readOptions_ok _ hall]
                constructor
                · intro hfalse
                  simp [isError] at hfalse
                · intro hrhs
                  exfalso
                  rcases hrhs with h | h | h | h | h | h
                  · exact hA h
                  · rw [h0] at h
                    cases h
                  · rw [h1] at h
                    cases h
                  · rw [h2] at h
                    cases h
                  · exact h hop
                  · exact hbad h
            · have hcon : opsList.contains
                  (takeNul (asText (args.getD 1 .null))) = false := by
                simpa using hop
              rw [if_pos (by rw [hcon]; decide)]
              exact ⟨fun _ => Or.inr (Or.inr (Or.inr (Or.inr
                (Or.inl hop)))), fun _ => rfl⟩
          · replace h2 : isTextV (args.getD 2 .null) = false := by
              simpa using h2
            rw [if_pos (by rw [h2]; simp)]
            exact ⟨fun _ => Or.inr (Or.inr (Or.inr (Or.inl h2))),
              fun _ => rfl⟩
        · replace h1 : isTextV (args.getD 1 .null) = false := by
            simpa using h1
          rw [if_pos (by rw [h1]; simp)]
          exact ⟨fun _ => Or.inr (Or.inr (Or.inl h1)), fun _ => rfl⟩
      · replace h0 : isTextV (args.getD 0 .null) = false := by
          simpa using h0
        rw [if_pos (by rw [h0]; simp)]
        exact ⟨fun _ => Or.inr (Or.inl h0), fun _ => rfl⟩
  · rw [versionCompareFunc_cons l op r (List.replicate k .null),
      versionCompareFunc_cons l op r []]
    by_cases hcop : opsList.contains (takeNul op) = true
    · rw [if_neg (by rw [hcop]; decide), if_neg (by rw [hcop]; decide)]
      rw [List.take_replicate, readOptions_nulls, List.take_nil]
      have hopts : List.replicate (min 4 k) false ++
          List.replicate
            (4 - (List.replicate (min 4 k) false).length) false =
          List.replicate 4 false := by
        rw [List.length_replicate, ← List.replicate_add]
        congr 1
        omega
      have hopts2 : ([] : List Bool) ++
          List.replicate (4 - ([] : List Bool).length) false =
          List.replicate 4 false := by
        simp
      dsimp only [readOptions]
      rw [hopts, hopts2]
    · have hcf : opsList.contains (takeNul op) = false := by
        simpa using hcop
      rw [if_pos (by rw [hcf]; decide), if_pos (by rw [hcf]; decide)]

/-- The comparator result the scalar predicate computes on text
arguments: NUL-truncated byte strings and the four policy bits resolved
from the option arguments. -/
def predicateRC (l r : VerStr) (opts : List SqlValue) : Int :=
  versionCompareI (takeNul l) (takeNul r)
    ((resolvedOpts opts).getD 0 false) ((resolvedOpts opts).getD 1 false)
    ((resolvedOpts opts).getD 2 false) ((resolvedOpts opts).getD 3 false)

/-- C7: on a valid invocation (three textual arguments, operator in the
allowed set, well-typed options) with rc the comparator result under the
resolved policy, the predicate returns true exactly when rc < 0 and the
operator is `<` or `<=`, or rc > 0 and the operator is `>` or `>=`, or
rc = 0 and the operator is `=`, `<=`, or `>=`; in particular
`version_compare('1.0','<','2.0')`, `version_compare('1.0','=','1.0')`
and `version_compare('1.0','>=','1.0')` are all true. -/
theorem versionCompareFunc_mapping (l op r : VerStr)
    (opts : List SqlValue) (hop : op ∈ opsList)
    (hopts : ∀ v ∈ opts.take 4, isIntOrNull v = true) :
    (∃ b : Bool,
      versionCompareFunc (.text l :: .text op :: .text r :: opts) =
        .ok b ∧
      (b = true ↔
        (predicateRC l r opts < 0 ∧ (op = [60] ∨ op = [60, 61])) ∨
        (0 < predicateRC l r opts ∧ (op = [62] ∨ op = [62, 61])) ∨
        (predicateRC l r opts = 0 ∧
          (op = [61] ∨ op = [60, 61] ∨ op = [62, 61])))) ∧
    versionCompareFunc [.text [49, 46, 48], .text [60],
      .text [50, 46, 48]] = .ok true ∧
    versionCompareFunc [.text [49, 46, 48], .text [61],
      .text [49, 46, 48]] = .ok true ∧
    versionCompareFunc [.text [49, 46, 48], .text [62, 61],
      .text [49, 46, 48]] = .ok true := by
  have hop5 : op = [60] ∨ op = [60, 61] ∨ op = [61] ∨ op = [62, 61] ∨
      op = [62] := by
    simpa [opsList] using hop
  have hnul : takeNul op = op := by
    rcases hop5 with rfl | rfl | rfl | rfl | rfl <;> rfl
  have hcon : opsList.contains (takeNul op) = true := by
    rw [hnul]
    rcases hop5 with rfl | rfl | rfl | rfl | rfl <;> rfl
  refine ⟨?_, rfl, rfl, rfl⟩
  rw [versionCompareFunc_cons, if_neg (by rw [hcon]; decide),
    readOptions_ok _ hopts]
  dsimp only
  rw [List.length_map, hnul]
  have heq : versionCompareI (takeNul l) (takeNul r)
      ((List.map optBool (opts.take 4) ++
        List.replicate (4 - (opts.take 4).length) false).getD 0 false)
      ((List.map optBool (opts.take 4) ++
        List.replicate (4 - (opts.take 4).length) false).getD 1 false)
      ((List.map optBool (opts.take 4) ++
        List.replicate (4 - (opts.take 4).length) false).getD 2 false)
      ((List.map optBool (opts.take 4) ++
        List.replicate (4 - (opts.take 4).length) false).getD 3 false) =
      predicateRC l r opts := by
    rw [predicateRC, resolvedOpts]
  rw [heq]
  refine ⟨_, rfl, ?_⟩
  rcases lt_trichotomy (predicateRC l r opts) 0 with hrc | hrc | hrc
  · rw [if_pos hrc]
    have h2 : ¬ (0 < predicateRC l r opts) := lt_asymm hrc
    have h3 : predicateRC l r opts ≠ 0 := hrc.ne
    simp only [hrc, h2, h3, true_and, false_and, or_false, false_or,
      iff_true, iff_false]
    rcases hop5 with rfl | rfl | rfl | rfl | rfl <;> decide
  · rw [if_neg (by omega), if_neg (by omega)]
    have h2 : ¬ (predicateRC l r opts < 0) := by omega
    have h3 : ¬ (0 < predicateRC l r opts) := by omega
    simp only [hrc, h2, h3, true_and, false_and, or_false, false_or,
      iff_true, iff_false]
    rcases hop5 with rfl | rfl | rfl | rfl | rfl <;> decide
  · rw [if_neg (by omega), if_pos hrc]
    have h2 : ¬ (predicateRC l r opts < 0) := by omega
    have h3 : predicateRC l r opts ≠ 0 := by omega
    simp only [hrc, h2, h3, true_and, false_and, or_false, false_or,
      iff_true, iff_false]
    rcases hop5 with rfl | rfl | rfl | rfl | rfl <;> decide

/-- Witness for `versionCompareFunc_mapping`: `1 < 2` with no option
arguments. -/
theorem versionCompareFunc_mapping_witness :
    ∃ b : Bool,
      versionCompareFunc [SqlValue.text [49], SqlValue.text [60],
        SqlValue.text [50]] = .ok b ∧
      (b = true ↔
        (predicateRC [49] [50] [] < 0 ∧
          (([60] : VerStr) = [60] ∨ ([60] : VerStr) = [60, 61])) ∨
        (0 < predicateRC [49] [50] [] ∧
          (([60] : VerStr) = [62] ∨ ([60] : VerStr) = [62, 61])) ∨
        (predicateRC [49] [50] [] = 0 ∧
          (([60] : VerStr) = [61] ∨ ([60] : VerStr) = [60, 61] ∨
            ([60] : VerStr) = [62, 61]))) :=
  (versionCompareFunc_mapping [49] [60] [50] [] (by decide)
    (by simp)).1

end OsqueryVersion
